import Mathlib

/-!
Shallow embedding of the core of `startssl.py` (StartSSL_API), together with
proofs checking the natural-language specification against the code.

The embedding translates the Python source into executable Lean definitions:

* `is_validated_domain`   — `API.is_validated_domain` (suffix-based coverage)
* `planLoop` / `plan`     — the subject-planning phase of
                            `API.submit_certificate_request` (lines 433–451)
* `subjectsOf`            — the subjects-list construction (lines 427–431)
* `CSRData`, `get_common_name`, `get_subject_alt_names`
                          — the decoded-CSR data model of class `CSR`

Python-specific behaviours are modelled explicitly: `str.endswith` is literal
list-suffix comparison, `if validated_domain:` is string truthiness (both
`None` and `""` are falsy), and `if types and ...` treats an empty filter
list as "no filter".

The file is organised as definitions first, then theorems.
-/

namespace StartSSL

/-! ## Definitions: Domain Validator (`API.is_validated_domain`) -/

/-- Python `s.endswith(suffixStr)`: literal string-suffix comparison
(`s.endswith("")` is always true). -/
def pyEndsWith (s suffixStr : String) : Bool :=
  suffixStr.data.isSuffixOf s.data

/-- Embedding of `API.is_validated_domain` (startssl.py lines 257–269):
iterate over the validated-domain list, returning the first entry that is a
literal suffix of `domain`; Python returns `False` (here `none`) otherwise. -/
def is_validated_domain (domain : String) : List String → Option String
  | [] => none
  | vd :: rest =>
    if pyEndsWith domain vd then some vd else is_validated_domain domain rest

/-! ## Definitions: Subject Planner
(planning phase of `API.submit_certificate_request`) -/

/-- The subject plan assembled by `submit_certificate_request`:
the requested `subjects`, the covering validated domains `subjects_direct`
(first-seen order, deduplicated), the strict subdomains `subjects_subdomain`,
and the first covering domain `validated_domain_first`. -/
structure SubjectPlan where
  subjects : List String
  subjects_direct : List String
  subjects_subdomain : List String
  validated_domain_first : Option String
  deriving Repr, DecidableEq

/-- Failure modes of the planning phase:
`noSubjectsFound` is `assert len(subjects) > 0` (line 433),
`missingValidation s` is
`raise ValueError("Missing domain validations for %s." % subject)` (line 449),
and `noDirectSubjects` is `assert len(subjects_direct) > 0` (line 451). -/
inductive PlanError where
  | noSubjectsFound
  | missingValidation (subject : String)
  | noDirectSubjects
  deriving Repr, DecidableEq

/-- Python truthiness of an optional string: `None` and `""` are falsy. -/
def pyTruthy : Option String → Bool
  | none => false
  | some s => s ≠ ""

/-- Embedding of the coverage loop of `submit_certificate_request`
(lines 438–449).  For each subject in order, look up the covering validated
domain; `if validated_domain:` is Python truthiness, so both a `False` result
and an empty-string domain take the `raise` branch. -/
def planLoop (ds : List String) :
    List String → List String → List String → Option String →
    Except PlanError (List String × List String × Option String)
  | [], direct, sub, first => .ok (direct, sub, first)
  | s :: rest, direct, sub, first =>
    match is_validated_domain s ds with
    | none => .error (.missingValidation s)
    | some vd =>
      if vd = "" then .error (.missingValidation s)
      else
        planLoop ds rest
          (if vd ∈ direct then direct else direct ++ [vd])
          (if s = vd then sub else sub ++ [s])
          (if pyTruthy first then first else some vd)

/-- Embedding of the planning phase of `submit_certificate_request`
(lines 433–451): the `len(subjects) > 0` assert, the coverage loop, and the
`len(subjects_direct) > 0` assert, producing the `SubjectPlan`. -/
def plan (subjects ds : List String) : Except PlanError SubjectPlan :=
  if subjects.length = 0 then .error .noSubjectsFound
  else
    match planLoop ds subjects [] [] none with
    | .error e => .error e
    | .ok (direct, sub, first) =>
      if direct.length = 0 then .error .noDirectSubjects
      else .ok ⟨subjects, direct, sub, first⟩

/-- Spec-side predicate: the subject has no covering validated domain. -/
def Uncovered (s : String) (ds : List String) : Prop :=
  ∀ d ∈ ds, ¬ d.data <:+ s.data

/-! ## Definitions: decoded-CSR data model (class `CSR`) and the
subjects-list construction (`submit_certificate_request` lines 427–431). -/

/-- OID of the PKCS#9 extensionRequest attribute
(`CSR.id_PKCS9_extensionRequest`). -/
def id_PKCS9_extensionRequest : String := "1.2.840.113549.1.9.14"

/-- OID of the X.509 subjectAltName extension
(`rfc2459.id_ce_subjectAltName`). -/
def id_ce_subjectAltName : String := "2.5.29.17"

/-- OID of the commonName attribute type (`rfc2459.id_at_commonName`). -/
def id_at_commonName : String := "2.5.4.3"

/-- One AttributeTypeAndValue of a relative distinguished name; `value`
models the DER-decoded directory string. -/
structure AttributeTypeAndValue where
  oid : String
  value : String
  deriving Repr, DecidableEq

/-- A relative distinguished name.  ASN.1 requires `SET SIZE (1..MAX)`, and
the code indexes `subject[0]`, so the first element is kept separately. -/
structure RDN where
  first : AttributeTypeAndValue
  rest : List AttributeTypeAndValue
  deriving Repr, DecidableEq

/-- An X.509 extension as used by `get_subject_alt_names`: its OID and the
generalNames decoded from its payload (meaningful when the OID is the
subjectAltName OID; `(type, value)` pairs as yielded by the generator). -/
structure X509Extension where
  extnID : String
  generalNames : List (String × String)
  deriving Repr, DecidableEq

/-- A CSR attribute: its type OID and the extension sequence decoded from
its first value (`attribute_value[0]`, meaningful for the extensionRequest
OID). -/
structure CSRAttribute where
  attrType : String
  extensions : List X509Extension
  deriving Repr, DecidableEq

/-- The decoded certification-request information the code reads from the
pyasn1 tree: the subject RDN sequence and the attribute list. -/
structure CSRData where
  subject : List RDN
  attributes : List CSRAttribute
  deriving Repr, DecidableEq

/-- Embedding of `CSR.get_common_name` (lines 92–103): walk the RDN
sequence, take each RDN's first AttributeTypeAndValue, and return the value
of the first one whose type OID is the commonName OID; `None` when absent. -/
def get_common_name (csr : CSRData) : Option String :=
  go csr.subject
where
  go : List RDN → Option String
  | [] => none
  | rdn :: rest =>
    if rdn.first.oid = id_at_commonName then some rdn.first.value else go rest

/-- Embedding of the generator `CSR.get_subject_alt_names` (lines 105–131)
as the list of yielded `(type, value)` pairs: skip attributes that are not
the extensionRequest, skip extensions that are not subjectAltName, and skip
unwanted types — `if types and subject_alt_name_type not in types` — where
an empty (or `None`) `types` is falsy and disables the filter. -/
def get_subject_alt_names (csr : CSRData) (types : List String) :
    List (String × String) :=
  csr.attributes.flatMap fun attr =>
    if attr.attrType ≠ id_PKCS9_extensionRequest then []
    else
      attr.extensions.flatMap fun ext =>
        if ext.extnID ≠ id_ce_subjectAltName then []
        else
          ext.generalNames.filter fun gn =>
            !(!types.isEmpty && !(types.contains gn.1))

/-- Spec-side description of "every SAN entry in encoding order": all
generalNames of all subjectAltName extensions of all extensionRequest
attributes, flattened in order. -/
def allSubjectAltNames (csr : CSRData) : List (String × String) :=
  (csr.attributes.filter
      fun a => a.attrType = id_PKCS9_extensionRequest).flatMap
    fun a =>
      (a.extensions.filter fun e => e.extnID = id_ce_subjectAltName).flatMap
        fun e => e.generalNames

/-- Embedding of the subjects-list construction of
`submit_certificate_request` (lines 427–431): start from `[commonName]` and
append each SAN value not already present.  `sans` is the output of
`get_subject_alt_names` with the dNSName filter. -/
def subjectsOf (cn : String) (sans : List (String × String)) : List String :=
  sans.foldl (fun acc tv => if tv.2 ∈ acc then acc else acc ++ [tv.2]) [cn]

/-- Spec-side first-appearance deduplication: keep the first occurrence of
every value, drop later duplicates. -/
def dropLaterDuplicates : List String → List String
  | [] => []
  | v :: rest => v :: dropLaterDuplicates (rest.filter (fun u => u ≠ v))
termination_by l => l.length
decreasing_by
  simp only [List.length_cons]
  exact Nat.lt_succ_of_le (List.length_filter_le _ rest)

/-- A sample decoded CSR used to instantiate universally quantified claims:
common name `example.com`, SANs `www.example.com`, `example.com`, one
rfc822Name entry, and a duplicate `www.example.com`. -/
def exampleCSR : CSRData where
  subject := [⟨⟨id_at_commonName, "example.com"⟩, []⟩]
  attributes :=
    [⟨id_PKCS9_extensionRequest,
      [⟨id_ce_subjectAltName,
        [("dNSName", "www.example.com"), ("dNSName", "example.com"),
         ("rfc822Name", "admin@example.com"),
         ("dNSName", "www.example.com")]⟩]⟩]

/-! ## Definitions: Bundle Extractor (`API.get_certificate`) -/

/-- A downloaded attachment node: either raw file bytes (modelled as the
ASCII text the code would decode) or bytes that parse as a zip archive,
with named entries in archive order (`ZipFile.namelist()` order). -/
inductive ZData where
  | file (content : String)
  | zdir (entries : List (String × ZData))

/-- Failure modes of `get_certificate`, one per `assert`/`raise` site:
`notZipSuffix` is `assert attachment_filename[-4:] == ".zip"` (line 371),
`notAnArchive` is `zipfile.ZipFile` rejecting non-zip bytes,
`invalidZipFile` is `assert zf_main.testzip() == None` (line 374),
`serverEntryCount`/`serverIntermediateMissing`/`serverLeafMissing` are the
asserts of lines 381–383, `clientSameName`/`clientIntermediateMissing` are
the asserts of lines 390–392, `unexpectedZipContent` is
`raise ValueError("unexpected zip content: ...")` (line 398),
`asciiDecodeFailure` is `bytes.decode("ascii")` failing, and the four
`no...` constructors are the PEM-marker asserts of lines 400–404. -/
inductive ExtractError where
  | notZipSuffix
  | notAnArchive
  | invalidZipFile
  | serverEntryCount
  | serverIntermediateMissing
  | serverLeafMissing
  | clientSameName
  | clientIntermediateMissing
  | unexpectedZipContent
  | asciiDecodeFailure
  | noBeginIntermediate
  | noEndIntermediate
  | noBeginCert
  | noEndCert
  deriving Repr, DecidableEq

/-- Python `s[-n:]`: the last `n` characters (the whole string when shorter). -/
def pyTakeLast (s : String) (n : Nat) : String :=
  ⟨s.data.drop (s.data.length - n)⟩

/-- Python `s[0:-n]`: everything but the last `n` characters. -/
def pyDropLast (s : String) (n : Nat) : String :=
  ⟨s.data.take (s.data.length - n)⟩

/-- Python `needle in hay` on strings: literal substring containment. -/
def pyContains (hay needle : String) : Bool :=
  decide (needle.data <:+: hay.data)

/-- `ZipFile.read(name)`: the data of the (first) entry with the given
name. -/
def readEntry : List (String × ZData) → String → Option ZData
  | [], _ => none
  | e :: rest, name => if e.1 = name then some e.2 else readEntry rest name

/-- `ZipFile.read(name).decode("ascii")`: the text of a plain-file entry. -/
def readText (entries : List (String × ZData)) (name : String) :
    Option String :=
  match readEntry entries name with
  | some (.file s) => some s
  | _ => none

/-- The `-----BEGIN CERTIFICATE-----` marker (line 400). -/
def BEGIN_CERT : String := "-----BEGIN CERTIFICATE-----"

/-- The `-----END CERTIFICATE-----` marker (line 401). -/
def END_CERT : String := "-----END CERTIFICATE-----"

/-- The four PEM-marker asserts of `get_certificate` (lines 400–404) and the
final return value `(basename, cert, intermediate_cert)`. -/
def pemMarkerChecks (basename cert intermediate_cert : String) :
    Except ExtractError (String × String × String) :=
  if pyContains intermediate_cert BEGIN_CERT = false then
    .error .noBeginIntermediate
  else if pyContains intermediate_cert END_CERT = false then
    .error .noEndIntermediate
  else if pyContains cert BEGIN_CERT = false then .error .noBeginCert
  else if pyContains cert END_CERT = false then .error .noEndCert
  else .ok (basename, cert, intermediate_cert)

/-- The server sub-archive checks of `get_certificate` (lines 378–386):
exactly three entries, the fixed intermediate name present, the
`"2_" + basename + ".crt"` leaf present; then read both. -/
def serverChecks (basename : String)
    (server_entries : List (String × ZData)) :
    Except ExtractError (String × String × String) :=
  let snames := server_entries.map Prod.fst
  let server_filename := "2_" ++ basename ++ ".crt"
  if snames.length ≠ 3 then .error .serverEntryCount
  else if "1_Intermediate.crt" ∉ snames then .error .serverIntermediateMissing
  else if server_filename ∉ snames then .error .serverLeafMissing
  else
    match readText server_entries "1_Intermediate.crt",
        readText server_entries server_filename with
    | some intermediate_cert, some cert =>
      pemMarkerChecks basename cert intermediate_cert
    | _, _ => .error .asciiDecodeFailure

/-- The server branch of `get_certificate` (lines 376–386): reparse the
`OtherServer.zip` entry as a zip and run the sub-archive checks. -/
def serverBranch (basename : String) (entries : List (String × ZData)) :
    Except ExtractError (String × String × String) :=
  match readEntry entries "OtherServer.zip" with
  | some (.zdir server_entries) => serverChecks basename server_entries
  | _ => .error .notAnArchive

/-- The client/object branch of `get_certificate` (lines 387–398): exactly
two entries (`len(zf_main.namelist()) == 2`), the second entry
(`namelist()[1]`) is the leaf, which must differ from the fixed intermediate
name, and the fixed intermediate name must be present; any other entry
count is `raise ValueError("unexpected zip content")`. -/
def clientBranch (basename : String) :
    List (String × ZData) → Except ExtractError (String × String × String)
  | [e0, e1] =>
    let cert_filename := e1.1
    if "1_Intermediate.crt" = cert_filename then .error .clientSameName
    else if "1_Intermediate.crt" ∉ [e0.1, e1.1] then
      .error .clientIntermediateMissing
    else
      match readText [e0, e1] "1_Intermediate.crt",
          readText [e0, e1] cert_filename with
      | some intermediate_cert, some cert =>
        pemMarkerChecks basename cert intermediate_cert
      | _, _ => .error .asciiDecodeFailure
  | _ => .error .unexpectedZipContent

/-- Embedding of `API.get_certificate` (lines 360–406) on the downloaded
attachment: check the `.zip` suffix, strip it to the basename, open the
outer archive (`testzipOk` models `testzip() == None`), then dispatch on
whether `OtherServer.zip` is among the entry names. -/
def get_certificate (attachment_filename : String) (zip_file : ZData)
    (testzipOk : Bool) : Except ExtractError (String × String × String) :=
  if pyTakeLast attachment_filename 4 ≠ ".zip" then .error .notZipSuffix
  else
    let basename := pyDropLast attachment_filename 4
    match zip_file with
    | .file _ => .error .notAnArchive
    | .zdir entries =>
      if testzipOk = false then .error .invalidZipFile
      else if "OtherServer.zip" ∈ entries.map Prod.fst then
        serverBranch basename entries
      else clientBranch basename entries

/-- Spec §7 taxonomy: the failure sites that reject an archive whose entry
set matches neither known layout (unrecognized-layout kind). -/
def isUnrecognizedLayoutError : ExtractError → Bool
  | .serverEntryCount => true
  | .serverIntermediateMissing => true
  | .serverLeafMissing => true
  | .clientSameName => true
  | .clientIntermediateMissing => true
  | .unexpectedZipContent => true
  | _ => false

/-- Spec §7 taxonomy: the failure sites that reject malformed entry content
(format kind). -/
def isFormatError : ExtractError → Bool
  | .asciiDecodeFailure => true
  | .noBeginIntermediate => true
  | .noEndIntermediate => true
  | .noBeginCert => true
  | .noEndCert => true
  | _ => false

/-- A well-formed intermediate-certificate PEM text for concrete tests. -/
def interPem : String :=
  "-----BEGIN CERTIFICATE-----\nMIIBintermediate\n-----END CERTIFICATE-----\n"

/-- A well-formed leaf-certificate PEM text for concrete tests. -/
def leafPem : String :=
  "-----BEGIN CERTIFICATE-----\nMIIBleaf\n-----END CERTIFICATE-----\n"

/-! ## Definitions: CSR PEM parsing (`CSR.__parse_pem`) -/

/-- The BEGIN marker of the regex in `CSR.__parse_pem` (line 78). -/
def BEGIN_CSR : String := "-----BEGIN CERTIFICATE REQUEST-----"

/-- The END marker of the regex in `CSR.__parse_pem` (line 78). -/
def END_CSR : String := "-----END CERTIFICATE REQUEST-----"

/-- The regex character class `[A-Za-z0-9+/=\n\r\t ]` of the captured
group. -/
def isB64Char (c : Char) : Bool :=
  c.isAlphanum || c = '+' || c = '/' || c = '=' || c = '\n' || c = '\r' ||
    c = '\t' || c = ' '

/-- One attempt of the regex at the current position: the BEGIN marker,
then the (greedy, hence maximal — no class character can start the END
marker) run of class characters, then the END marker immediately after. -/
def matchPemAt (s : List Char) : Option (List Char) :=
  if BEGIN_CSR.data.isPrefixOf s then
    if END_CSR.data.isPrefixOf
        ((s.drop BEGIN_CSR.data.length).dropWhile isB64Char) then
      some ((s.drop BEGIN_CSR.data.length).takeWhile isB64Char)
    else none
  else none

/-- `re.search` of the CSR pattern: try every start position from the left,
returning the first full match's captured group. -/
def findPemBlock : List Char → Option (List Char)
  | [] => matchPemAt []
  | c :: rest =>
    match matchPemAt (c :: rest) with
    | some run => some run
    | none => findPemBlock rest

/-- The base64 value of an alphabet character, `none` outside the
alphabet. -/
def b64Val (c : Char) : Option Nat :=
  if 'A' ≤ c ∧ c ≤ 'Z' then some (c.toNat - 65)
  else if 'a' ≤ c ∧ c ≤ 'z' then some (c.toNat - 97 + 26)
  else if '0' ≤ c ∧ c ≤ '9' then some (c.toNat - 48 + 52)
  else if c = '+' then some 62
  else if c = '/' then some 63
  else none

/-- Decode cleaned base64 text in four-character groups; `=` padding is
accepted only in the final group. -/
def b64Groups : List Char → Option (List Nat)
  | [] => some []
  | a :: b :: c :: d :: rest =>
    match b64Val a, b64Val b with
    | some va, some vb =>
      if c = '=' then
        if d = '=' ∧ rest = [] then some [va * 4 + vb / 16] else none
      else
        match b64Val c with
        | some vc =>
          if d = '=' then
            if rest = [] then
              some [va * 4 + vb / 16, vb % 16 * 16 + vc / 4]
            else none
          else
            match b64Val d with
            | some vd =>
              (b64Groups rest).map fun tail =>
                (va * 4 + vb / 16) :: (vb % 16 * 16 + vc / 4) ::
                  (vc % 4 * 64 + vd) :: tail
            | none => none
        | none => none
    | _, _ => none
  | _ => none

/-- Python `base64.b64decode` with `validate=False`: discard characters
outside the alphabet, require a length divisible by four (otherwise
`binascii.Error`, a `ValueError`), then decode the groups. -/
def b64decodePy (cs : List Char) : Option (List Nat) :=
  let kept := cs.filter fun c => (b64Val c).isSome || c = '='
  if kept.length % 4 ≠ 0 then none else b64Groups kept

/-- Failure modes of `CSR.__parse_pem`:
`notValidPem` is `raise ValueError("Not a valid PEM CSR")` (line 80) when
the regex finds no match; `invalidBase64` is the `binascii.Error` (a
`ValueError`) raised by `base64.b64decode`; `derViolation` is the error the
pyasn1 DER decoder raises on a malformed PKCS#10 structure (line 84). -/
inductive CSRError where
  | notValidPem
  | invalidBase64
  | derViolation
  deriving Repr, DecidableEq

/-- The state `CSR.__init__`/`__parse_pem` leave behind: the original PEM
text (`self.pem`) and the decoded structure (`self.asn1`). -/
structure ParsedCSR where
  pem : String
  asn1 : CSRData

/-- Embedding of `CSR.__parse_pem` (lines 73–84), parameterised by the
pyasn1 DER decoder `derDecode` — an external library, modelled as an
arbitrary fallible function: regex search for the delimited base64 block,
base64-decode the captured group, DER-decode the bytes. -/
def parse_pem (derDecode : List Nat → Except Unit CSRData) (pem : String) :
    Except CSRError ParsedCSR :=
  match findPemBlock pem.data with
  | none => .error .notValidPem
  | some run =>
    match b64decodePy run with
    | none => .error .invalidBase64
    | some bin =>
      match derDecode bin with
      | .ok a => .ok ⟨pem, a⟩
      | .error _ => .error .derViolation

/-- Spec-side: the input contains a
`-----BEGIN CERTIFICATE REQUEST-----` / `-----END CERTIFICATE REQUEST-----`
delimited block of base64/whitespace characters. -/
def HasPemBlock (s : List Char) : Prop :=
  ∃ pre mid post,
    s = pre ++ BEGIN_CSR.data ++ mid ++ END_CSR.data ++ post ∧
      ∀ c ∈ mid, isB64Char c = true

/-! ## Definitions: Request Assembler (`submit_certificate_request` line 454
and `__request` lines 190–191, i.e. `urllib.urlencode` with `quote_plus`). -/

/-- The characters `urllib` quoting never escapes: ASCII letters, digits,
and `_.-~`. -/
def alwaysSafe (c : Char) : Bool :=
  c.isAlpha || c.isDigit || c = '_' || c = '.' || c = '-' || c = '~'

/-- UTF-8 encoding of one scalar value (Python `str.encode("utf-8")`). -/
def utf8EncodeChar (c : Char) : List Nat :=
  if c.toNat < 0x80 then [c.toNat]
  else if c.toNat < 0x800 then
    [0xC0 + c.toNat / 64, 0x80 + c.toNat % 64]
  else if c.toNat < 0x10000 then
    [0xE0 + c.toNat / 4096, 0x80 + c.toNat / 64 % 64, 0x80 + c.toNat % 64]
  else
    [0xF0 + c.toNat / 262144, 0x80 + c.toNat / 4096 % 64,
      0x80 + c.toNat / 64 % 64, 0x80 + c.toNat % 64]

/-- UTF-8 encoding of a character sequence. -/
def utf8Encode (s : List Char) : List Nat := s.flatMap utf8EncodeChar

/-- The value of a UTF-8 continuation byte (`0x80..0xBF`), `none`
otherwise. -/
def contVal (b : Nat) : Option Nat :=
  if 0x80 ≤ b ∧ b < 0xC0 then some (b - 0x80) else none

/-- UTF-8 decoding (spec side of the round trip): the lead byte selects the
sequence length, continuation bytes must lie in `0x80..0xBF`. -/
def utf8Decode : List Nat → Option (List Char)
  | [] => some []
  | b0 :: rest =>
    if b0 < 0x80 then (utf8Decode rest).map fun cs => Char.ofNat b0 :: cs
    else if b0 < 0xC0 then none
    else if b0 < 0xE0 then
      if rest.length < 1 then none
      else
        (contVal (rest.headD 0)).bind fun v1 =>
          (utf8Decode rest.tail).map fun cs =>
            Char.ofNat ((b0 - 0xC0) * 64 + v1) :: cs
    else if b0 < 0xF0 then
      if rest.length < 2 then none
      else
        (contVal (rest.headD 0)).bind fun v1 =>
          (contVal (rest.tail.headD 0)).bind fun v2 =>
            (utf8Decode rest.tail.tail).map fun cs =>
              Char.ofNat ((b0 - 0xE0) * 4096 + v1 * 64 + v2) :: cs
    else if b0 < 0xF8 then
      if rest.length < 3 then none
      else
        (contVal (rest.headD 0)).bind fun v1 =>
          (contVal (rest.tail.headD 0)).bind fun v2 =>
            (contVal (rest.tail.tail.headD 0)).bind fun v3 =>
              (utf8Decode rest.tail.tail.tail).map fun cs =>
                Char.ofNat ((b0 - 0xF0) * 262144 + v1 * 4096 + v2 * 64 +
                  v3) :: cs
    else none
termination_by l => l.length
decreasing_by
  all_goals simp [List.length_tail]
  all_goals omega

/-- The sixteen uppercase hex digits (`urllib` quoting uses uppercase). -/
def hexDigitChars : List Char :=
  ['0', '1', '2', '3', '4', '5', '6', '7', '8', '9', 'A', 'B', 'C', 'D',
    'E', 'F']

/-- The hex digit of a value below sixteen. -/
def hexDigit (n : Nat) : Char := hexDigitChars.getD n '0'

/-- The value of a hex digit, accepting both cases. -/
def hexVal (c : Char) : Option Nat :=
  if '0' ≤ c ∧ c ≤ '9' then some (c.toNat - 48)
  else if 'A' ≤ c ∧ c ≤ 'F' then some (c.toNat - 55)
  else if 'a' ≤ c ∧ c ≤ 'f' then some (c.toNat - 87)
  else none

/-- `urllib.quote_plus` on one UTF-8 byte: space becomes `+`, always-safe
bytes stay literal, everything else is percent-encoded. -/
def quoteByte (b : Nat) : List Char :=
  if b = 32 then ['+']
  else if b < 128 ∧ alwaysSafe (Char.ofNat b) = true then [Char.ofNat b]
  else ['%', hexDigit (b / 16), hexDigit (b % 16)]

/-- `urllib.quote_plus` of a whole string: UTF-8 encode, quote each byte. -/
def quote_plus (s : String) : List Char :=
  (utf8Encode s.data).flatMap quoteByte

/-- `urllib.urlencode` of an association list: `quote_plus` each key and
value, join pairs with `=`, join entries with `&`. -/
def urlencodeChars : List (String × String) → List Char
  | [] => []
  | [kv] => quote_plus kv.1 ++ ('=' :: quote_plus kv.2)
  | kv :: rest =>
    quote_plus kv.1 ++
      ('=' :: (quote_plus kv.2 ++ ('&' :: urlencodeChars rest)))

/-- `urllib.urlencode` as a string. -/
def urlencode (pairs : List (String × String)) : String :=
  ⟨urlencodeChars pairs⟩

/-- The form body assembled by `submit_certificate_request` (line 454):
fixed field names, the subjects concatenated with no separator
(`"".join(subjects)`), and the literal CSR PEM text (`csr.get_pem()`). -/
def submissionBody (p : SubjectPlan) (csrPem : String) :
    List (String × String) :=
  [("domains", String.join p.subjects), ("rbcsr", "scsr"),
    ("areaCSR", csrPem), ("hidchekcer", "1"),
    ("__EVENTTARGET", "btnSubmit")]

/-- The Request Assembler: `__request` URL-encodes the body list when it is
a list (lines 190–191), so the submitted body is the urlencoded pairs. -/
def build (p : SubjectPlan) (csrPem : String) : String :=
  urlencode (submissionBody p csrPem)

/-- Prepend a character to the first group of a split result. -/
def consHead (c : Char) : List (List Char) → List (List Char)
  | g :: gs => (c :: g) :: gs
  | [] => [[c]]

/-- Spec-side form decoding: split the body on `&`. -/
def splitAmp : List Char → List (List Char)
  | [] => [[]]
  | c :: rest =>
    if c = '&' then [] :: splitAmp rest else consHead c (splitAmp rest)

/-- Spec-side form decoding: split one entry at the first `=`. -/
def splitEq1 : List Char → List Char × List Char
  | [] => ([], [])
  | c :: rest =>
    if c = '=' then ([], rest)
    else (c :: (splitEq1 rest).1, (splitEq1 rest).2)

/-- Spec-side form decoding: percent-decoding to bytes (`+` is a space). -/
def percentDecode : List Char → Option (List Nat)
  | [] => some []
  | c :: rest =>
    if c = '%' then
      if rest.length < 2 then none
      else
        (hexVal (rest.headD ' ')).bind fun a =>
          (hexVal (rest.tail.headD ' ')).bind fun b =>
            (percentDecode rest.tail.tail).map fun bs => (a * 16 + b) :: bs
    else if c = '+' then (percentDecode rest).map fun bs => 32 :: bs
    else (percentDecode rest).map fun bs => c.toNat :: bs
termination_by l => l.length
decreasing_by
  all_goals simp [List.length_tail]
  all_goals omega

/-- Spec-side form decoding: `unquote_plus` (percent-decode, then UTF-8
decode). -/
def unquote_plus (cs : List Char) : Option String :=
  (percentDecode cs).bind fun bs => (utf8Decode bs).map fun l => ⟨l⟩

/-- Spec-side form decoding of a whole body. -/
def formDecode (s : String) : Option (List (String × String)) :=
  (splitAmp s.data).mapM fun piece =>
    match unquote_plus (splitEq1 piece).1,
        unquote_plus (splitEq1 piece).2 with
    | some k, some v => some (k, v)
    | _, _ => none

/-! ## Theorems: Domain Validator -/

theorem pyEndsWith_iff (s suffixStr : String) :
    pyEndsWith s suffixStr = true ↔ suffixStr.data <:+ s.data := by
  simp [pyEndsWith, List.isSuffixOf_iff_suffix]

theorem is_validated_domain_eq_none_iff (n : String) (ds : List String) :
    is_validated_domain n ds = none ↔ ∀ d ∈ ds, ¬ d.data <:+ n.data := by
  induction ds with
  | nil => simp [is_validated_domain]
  | cons vd rest ih =>
    by_cases h : pyEndsWith n vd = true
    · simp only [is_validated_domain, h, if_true]
      constructor
      · intro hc; cases hc
      · intro hall
        exact absurd ((pyEndsWith_iff n vd).mp h) (hall vd (by simp))
    · simp only [is_validated_domain, h, if_false, Bool.false_eq_true]
      rw [ih]
      constructor
      · intro hall d hd
        rcases List.mem_cons.mp hd with rfl | hd
        · intro hsuf; exact h ((pyEndsWith_iff n d).mpr hsuf)
        · exact hall d hd
      · intro hall d hd; exact hall d (List.mem_cons_of_mem _ hd)

theorem is_validated_domain_eq_some (n : String) (ds : List String)
    (d : String) (h : is_validated_domain n ds = some d) :
    ∃ pre post, ds = pre ++ d :: post ∧ d.data <:+ n.data ∧
      ∀ e ∈ pre, ¬ e.data <:+ n.data := by
  induction ds with
  | nil => simp [is_validated_domain] at h
  | cons vd rest ih =>
    by_cases hvd : pyEndsWith n vd = true
    · simp only [is_validated_domain, hvd, if_true, Option.some.injEq] at h
      exact h ▸ ⟨[], rest, rfl, (pyEndsWith_iff n vd).mp hvd, by simp⟩
    · simp only [is_validated_domain, hvd, if_false, Bool.false_eq_true] at h
      obtain ⟨pre, post, hds, hsuf, hpre⟩ := ih h
      refine ⟨vd :: pre, post, by simp [hds], hsuf, ?_⟩
      intro e he
      rcases List.mem_cons.mp he with rfl | he
      · intro hsuf2; exact hvd ((pyEndsWith_iff n e).mpr hsuf2)
      · exact hpre e he

theorem is_validated_domain_isSome (n : String) (ds : List String)
    (d : String) (hd : d ∈ ds) (hsuf : d.data <:+ n.data) :
    ∃ r, is_validated_domain n ds = some r := by
  cases hr : is_validated_domain n ds with
  | some r => exact ⟨r, rfl⟩
  | none =>
    exact absurd hsuf ((is_validated_domain_eq_none_iff n ds).mp hr d hd)

/-! ## Theorems: Subject Planner -/

theorem empty_mem_of_not_uncovered_exists {ds : List String}
    (h : "" ∈ ds) (s : String) : ¬ Uncovered s ds := by
  intro hu
  exact hu "" h ⟨s.data, by simp⟩

/-- If some subject in the list is uncovered, the coverage loop fails at the
first uncovered subject, whatever the accumulated state is. -/
theorem planLoop_error_of_uncovered (ds : List String) :
    ∀ (subjects : List String), (∃ s ∈ subjects, Uncovered s ds) →
    ∃ pre s post, subjects = pre ++ s :: post ∧ Uncovered s ds ∧
      (∀ t ∈ pre, ¬ Uncovered t ds) ∧
      ∀ direct sub first,
        planLoop ds subjects direct sub first =
          .error (.missingValidation s) := by
  intro subjects
  induction subjects with
  | nil => rintro ⟨s, hs, _⟩; cases hs
  | cons s0 rest ih =>
    rintro ⟨s, hs, hu⟩
    have hempty : "" ∉ ds := fun h => empty_mem_of_not_uncovered_exists h s hu
    by_cases h0 : Uncovered s0 ds
    · refine ⟨[], s0, rest, rfl, h0, by simp, ?_⟩
      intro direct sub first
      have hnone : is_validated_domain s0 ds = none :=
        (is_validated_domain_eq_none_iff s0 ds).mpr h0
      simp [planLoop, hnone]
    · have hs' : s ∈ rest := by
        rcases List.mem_cons.mp hs with rfl | h
        · exact absurd hu h0
        · exact h
      obtain ⟨pre, t, post, hrest, ht, hpre, hloop⟩ := ih ⟨s, hs', hu⟩
      refine ⟨s0 :: pre, t, post, by simp [hrest], ht, ?_, ?_⟩
      · intro u hu'
        rcases List.mem_cons.mp hu' with rfl | hu'
        · exact h0
        · exact hpre u hu'
      · intro direct sub first
        have : ∃ d ∈ ds, d.data <:+ s0.data := by
          by_contra hc
          push_neg at hc
          exact h0 hc
        obtain ⟨d, hd, hdsuf⟩ := this
        obtain ⟨r, hr⟩ := is_validated_domain_isSome s0 ds d hd hdsuf
        have hrne : r ≠ "" := by
          obtain ⟨p1, p2, hds, _, _⟩ := is_validated_domain_eq_some s0 ds r hr
          intro h
          subst h
          exact hempty (by rw [hds]; simp)
        simp only [planLoop, hr, hrne, if_false]
        exact hloop _ _ _

/-! ## Theorems: SAN extraction and subjects-list construction -/

theorem flatMap_sanExtensions (types : List String)
    (exts : List X509Extension) :
    (exts.flatMap fun ext =>
        if ext.extnID = id_ce_subjectAltName then
          ext.generalNames.filter fun gn =>
            !(!types.isEmpty && !(types.contains gn.1))
        else []) =
      ((exts.filter fun e => e.extnID = id_ce_subjectAltName).flatMap
          fun e => e.generalNames).filter
        fun gn => !(!types.isEmpty && !(types.contains gn.1)) := by
  induction exts with
  | nil => rfl
  | cons e rest ih =>
    simp only [List.flatMap_cons, List.filter_cons] at ih ⊢
    by_cases he : e.extnID = id_ce_subjectAltName
    · rw [if_pos he, if_pos (decide_eq_true he), List.flatMap_cons,
        List.filter_append]
      exact congrArg _ ih
    · rw [if_neg he, if_neg (by simpa using he), List.nil_append]
      exact ih

theorem get_subject_alt_names_eq_filter_all (csr : CSRData)
    (types : List String) :
    get_subject_alt_names csr types =
      (allSubjectAltNames csr).filter
        fun gn => !(!types.isEmpty && !(types.contains gn.1)) := by
  unfold get_subject_alt_names allSubjectAltNames
  induction csr.attributes with
  | nil => rfl
  | cons a rest ih =>
    simp only [List.flatMap_cons, List.filter_cons, ite_not] at ih ⊢
    by_cases ha : a.attrType = id_PKCS9_extensionRequest
    · rw [if_pos ha, if_pos (decide_eq_true ha), List.flatMap_cons,
        List.filter_append]
      rw [flatMap_sanExtensions]
      exact congrArg _ ih
    · rw [if_neg ha, if_neg (by simpa using ha), List.nil_append]
      exact ih

theorem get_subject_alt_names_empty_types (csr : CSRData) :
    get_subject_alt_names csr [] = allSubjectAltNames csr := by
  rw [get_subject_alt_names_eq_filter_all]
  have h : ∀ gn : String × String,
      (!(!(List.isEmpty ([] : List String)) &&
        !(([] : List String).contains gn.1))) = true := by
    intro gn; rfl
  rw [List.filter_congr (fun gn _ => h gn)]
  simp

theorem get_subject_alt_names_filter (csr : CSRData) (types : List String)
    (h : types ≠ []) :
    get_subject_alt_names csr types =
      (allSubjectAltNames csr).filter fun gn => types.contains gn.1 := by
  rw [get_subject_alt_names_eq_filter_all]
  apply List.filter_congr
  intro gn _
  have hne : types.isEmpty = false := by
    cases types with
    | nil => exact absurd rfl h
    | cons t ts => rfl
  rw [hne]
  simp

theorem foldl_dedup_eq (l : List String) :
    ∀ acc : List String,
      l.foldl (fun acc v => if v ∈ acc then acc else acc ++ [v]) acc =
        acc ++ dropLaterDuplicates (l.filter fun v => v ∉ acc) := by
  induction l with
  | nil => intro acc; simp [dropLaterDuplicates]
  | cons v rest ih =>
    intro acc
    by_cases hv : v ∈ acc
    · have hfilter : (v :: rest).filter (fun u => u ∉ acc) =
          rest.filter fun u => u ∉ acc := by
        simp [List.filter_cons, hv]
      simp only [List.foldl_cons, hv, if_true, hfilter]
      exact ih acc
    · have hfilter : (v :: rest).filter (fun u => u ∉ acc) =
          v :: rest.filter fun u => u ∉ acc := by
        simp [List.filter_cons, hv]
      simp only [List.foldl_cons, hv, if_false, hfilter]
      rw [ih (acc ++ [v])]
      rw [dropLaterDuplicates]
      have hff : (rest.filter fun u => u ∉ acc).filter (fun u => u ≠ v) =
          rest.filter fun u => u ∉ acc ++ [v] := by
        rw [List.filter_filter]
        apply List.filter_congr
        intro u _
        by_cases h1 : u ∈ acc <;> by_cases h2 : u = v <;>
          simp [h1, h2, List.mem_append]
      rw [hff]
      simp

theorem foldl_pairs_eq_foldl_values (sans : List (String × String)) :
    ∀ acc : List String,
      sans.foldl
          (fun acc tv => if tv.2 ∈ acc then acc else acc ++ [tv.2]) acc =
        (sans.map Prod.snd).foldl
          (fun acc v => if v ∈ acc then acc else acc ++ [v]) acc := by
  induction sans with
  | nil => intro acc; rfl
  | cons tv rest ih =>
    intro acc
    simp only [List.foldl_cons, List.map_cons]
    exact ih _

/-- The subjects list equals the common name followed by the
first-appearance deduplication of the SAN values distinct from it. -/
theorem subjectsOf_eq (cn : String) (sans : List (String × String)) :
    subjectsOf cn sans =
      cn :: dropLaterDuplicates
        ((sans.map Prod.snd).filter fun v => v ≠ cn) := by
  unfold subjectsOf
  rw [foldl_pairs_eq_foldl_values, foldl_dedup_eq]
  have hfc : ((sans.map Prod.snd).filter fun v => v ∉ ([cn] : List String)) =
      (sans.map Prod.snd).filter fun v => v ≠ cn := by
    apply List.filter_congr
    intro v _
    simp
  rw [hfc]
  simp

/-! ## Theorems: Bundle Extractor -/

theorem pyTakeLast_append_zip (bn : String) :
    pyTakeLast (bn ++ ".zip") 4 = ".zip" := by
  unfold pyTakeLast
  rw [String.data_append]
  have h4 : (".zip" : String).data.length = 4 := rfl
  rw [List.length_append, h4, Nat.add_sub_cancel, List.drop_left]

theorem pyDropLast_append_zip (bn : String) :
    pyDropLast (bn ++ ".zip") 4 = bn := by
  unfold pyDropLast
  rw [String.data_append]
  have h4 : (".zip" : String).data.length = 4 := rfl
  rw [List.length_append, h4, Nat.add_sub_cancel, List.take_left]

theorem readEntry_mem (entries : List (String × ZData)) (name : String)
    (d : ZData) (h : readEntry entries name = some d) :
    name ∈ entries.map Prod.fst := by
  induction entries with
  | nil => cases h
  | cons e rest ih =>
    unfold readEntry at h
    by_cases he : e.1 = name
    · exact he ▸ List.mem_map_of_mem Prod.fst (List.mem_cons_self e rest)
    · rw [if_neg he] at h
      exact List.mem_cons_of_mem _ (ih h)

theorem get_certificate_zdir (fn : String) (entries : List (String × ZData))
    (h : pyTakeLast fn 4 = ".zip") :
    get_certificate fn (.zdir entries) true =
      if "OtherServer.zip" ∈ entries.map Prod.fst then
        serverBranch (pyDropLast fn 4) entries
      else clientBranch (pyDropLast fn 4) entries := by
  unfold get_certificate
  rw [if_neg (by rw [h]; exact fun hc => hc rfl)]
  rfl

/-- C3 (amended): for a two-entry outer archive, the code takes
`namelist()[1]` — the second entry in archive order — as the leaf and
requires the first entry to be the fixed intermediate filename; so the
claim holds with "one entry" strengthened to "the first entry": when the
first entry is named `1_Intermediate.crt` and the second has any other name
(also distinct from the server sub-archive name `OtherServer.zip`), and
both entries hold PEM-marked text, extract returns the bundle with the
`.zip`-stripped basename as common name, the second entry's text as the
certificate, and the first entry's text as the intermediate; in particular
`{"1_Intermediate.crt": interPem, "2_foo.crt": leafPem}` with filename
`"foo.zip"` yields `("foo", leafPem, interPem)` (see the witness). -/
theorem two_entry_intermediate_first_reads_second_leaf
    (bn name ic cc : String)
    (hname : name ≠ "1_Intermediate.crt")
    (hsrv : name ≠ "OtherServer.zip")
    (hb1 : pyContains ic BEGIN_CERT = true)
    (he1 : pyContains ic END_CERT = true)
    (hb2 : pyContains cc BEGIN_CERT = true)
    (he2 : pyContains cc END_CERT = true) :
    get_certificate (bn ++ ".zip")
        (.zdir [("1_Intermediate.crt", .file ic), (name, .file cc)]) true =
      .ok (bn, cc, ic) := by
  rw [get_certificate_zdir _ _ (pyTakeLast_append_zip bn)]
  rw [if_neg (by
    simp only [List.map_cons, List.map_nil, List.mem_cons]
    push_neg
    exact ⟨by decide, fun h => hsrv h.symm, List.not_mem_nil _⟩)]
  rw [pyDropLast_append_zip bn]
  have h1 : readText [("1_Intermediate.crt", ZData.file ic),
      (name, ZData.file cc)] "1_Intermediate.crt" = some ic := rfl
  have h2 : readText [("1_Intermediate.crt", ZData.file ic),
      (name, ZData.file cc)] name = some cc := by
    have hr : readEntry [("1_Intermediate.crt", ZData.file ic),
        (name, ZData.file cc)] name = some (ZData.file cc) := by
      unfold readEntry
      rw [if_neg (fun h => hname h.symm)]
      unfold readEntry
      rw [if_pos rfl]
    unfold readText
    rw [hr]
  simp only [clientBranch]
  rw [if_neg (fun h => hname h.symm)]
  rw [if_neg (fun hno => hno (by simp))]
  simp only [h1, h2]
  simp [pemMarkerChecks, hb1, he1, hb2, he2]

/-- C5: for every archive whose outer zip contains a nested server-class
sub-archive entry (`OtherServer.zip` parsing as a zip), extract opens the
sub-archive and requires it to contain exactly three entries — any other
count fails with the entry-count error — and reads the intermediate entry
`1_Intermediate.crt` and the second numbered leaf entry
`"2_" + commonName + ".crt"` as the certificate pair. -/
theorem server_layout_requires_three_and_reads_pair
    (bn : String) (entries server_entries : List (String × ZData))
    (hsub : readEntry entries "OtherServer.zip" =
      some (.zdir server_entries)) :
    (server_entries.length ≠ 3 →
      get_certificate (bn ++ ".zip") (.zdir entries) true =
        .error .serverEntryCount) ∧
    ∀ ic cc,
      server_entries.length = 3 →
      readEntry server_entries "1_Intermediate.crt" = some (.file ic) →
      readEntry server_entries ("2_" ++ bn ++ ".crt") = some (.file cc) →
      pyContains ic BEGIN_CERT = true → pyContains ic END_CERT = true →
      pyContains cc BEGIN_CERT = true → pyContains cc END_CERT = true →
      get_certificate (bn ++ ".zip") (.zdir entries) true =
        .ok (bn, cc, ic) := by
  have hmem : "OtherServer.zip" ∈ entries.map Prod.fst :=
    readEntry_mem _ _ _ hsub
  have hred : get_certificate (bn ++ ".zip") (.zdir entries) true =
      serverChecks bn server_entries := by
    rw [get_certificate_zdir _ _ (pyTakeLast_append_zip bn), if_pos hmem,
      pyDropLast_append_zip]
    unfold serverBranch
    simp only [hsub]
  constructor
  · intro h3
    rw [hred]
    unfold serverChecks
    simp only [List.length_map]
    rw [if_pos h3]
  · intro ic cc h3 hic hcc hb1 he1 hb2 he2
    rw [hred]
    unfold serverChecks
    simp only [List.length_map]
    rw [if_neg (fun h => h h3)]
    rw [if_neg (fun h => h (readEntry_mem _ _ _ hic))]
    rw [if_neg (fun h => h (readEntry_mem _ _ _ hcc))]
    have ht1 : readText server_entries "1_Intermediate.crt" = some ic := by
      unfold readText
      rw [hic]
    have ht2 : readText server_entries ("2_" ++ bn ++ ".crt") = some cc := by
      unfold readText
      rw [hcc]
    simp only [ht1, ht2]
    simp [pemMarkerChecks, hb1, he1, hb2, he2]

/-! ## Theorems: CSR PEM parsing -/

theorem takeWhile_append_of_all {p : Char → Bool} (l1 l2 : List Char)
    (h : ∀ c ∈ l1, p c = true) :
    (l1 ++ l2).takeWhile p = l1 ++ l2.takeWhile p := by
  induction l1 with
  | nil => simp
  | cons c rest ih =>
    simp only [List.cons_append, List.takeWhile_cons, h c (by simp),
      if_true]
    rw [ih fun d hd => h d (by simp [hd])]

theorem dropWhile_append_of_all {p : Char → Bool} (l1 l2 : List Char)
    (h : ∀ c ∈ l1, p c = true) :
    (l1 ++ l2).dropWhile p = l2.dropWhile p := by
  induction l1 with
  | nil => simp
  | cons c rest ih =>
    simp only [List.cons_append, List.dropWhile_cons, h c (by simp),
      if_true]
    exact ih fun d hd => h d (by simp [hd])

theorem takeWhile_end_marker (post : List Char) :
    (END_CSR.data ++ post).takeWhile isB64Char = [] := by
  have hsplit : END_CSR.data ++ post = '-' :: (END_CSR.data.tail ++ post) :=
    rfl
  rw [hsplit, List.takeWhile_cons]
  have : isB64Char '-' = false := by decide
  rw [this]
  rfl

theorem dropWhile_end_marker (post : List Char) :
    (END_CSR.data ++ post).dropWhile isB64Char = END_CSR.data ++ post := by
  have hsplit : END_CSR.data ++ post = '-' :: (END_CSR.data.tail ++ post) :=
    rfl
  rw [hsplit, List.dropWhile_cons]
  have : isB64Char '-' = false := by decide
  rw [this]
  rfl

theorem matchPemAt_isSome_iff (s : List Char) :
    (matchPemAt s).isSome = true ↔
      ∃ mid post,
        s = BEGIN_CSR.data ++ (mid ++ (END_CSR.data ++ post)) ∧
          ∀ c ∈ mid, isB64Char c = true := by
  constructor
  · intro h
    unfold matchPemAt at h
    by_cases hp : BEGIN_CSR.data.isPrefixOf s = true
    · rw [if_pos hp] at h
      obtain ⟨t, ht⟩ := List.isPrefixOf_iff_prefix.mp hp
      have hdrop : s.drop BEGIN_CSR.data.length = t := by
        rw [← ht, List.drop_left]
      rw [hdrop] at h
      by_cases hq :
          END_CSR.data.isPrefixOf (t.dropWhile isB64Char) = true
      · obtain ⟨post, hpost⟩ := List.isPrefixOf_iff_prefix.mp hq
        refine ⟨t.takeWhile isB64Char, post, ?_, ?_⟩
        · rw [← ht]
          congr 1
          rw [hpost]
          exact (List.takeWhile_append_dropWhile isB64Char t).symm
        · exact fun c hc => List.mem_takeWhile_imp hc
      · rw [if_neg hq] at h
        cases h
    · rw [if_neg hp] at h
      cases h
  · rintro ⟨mid, post, rfl, hall⟩
    unfold matchPemAt
    rw [if_pos (List.isPrefixOf_iff_prefix.mpr ⟨_, rfl⟩),
      List.drop_left, dropWhile_append_of_all mid _ hall,
      dropWhile_end_marker]
    rw [if_pos (List.isPrefixOf_iff_prefix.mpr ⟨post, rfl⟩)]
    rfl

theorem findPemBlock_isSome_iff (s : List Char) :
    (findPemBlock s).isSome = true ↔ HasPemBlock s := by
  induction s with
  | nil =>
    constructor
    · intro h
      rw [show findPemBlock [] = none from rfl] at h
      cases h
    · rintro ⟨pre, mid, post, heq, _⟩
      exfalso
      have hlen := congrArg List.length heq
      simp [BEGIN_CSR] at hlen
      omega
  | cons c rest ih =>
    constructor
    · intro h
      unfold findPemBlock at h
      cases hm : matchPemAt (c :: rest) with
      | some run =>
        obtain ⟨mid, post, heq, hall⟩ :=
          (matchPemAt_isSome_iff (c :: rest)).mp (by rw [hm]; rfl)
        exact ⟨[], mid, post, by simpa using heq, hall⟩
      | none =>
        rw [hm] at h
        obtain ⟨pre, mid, post, heq, hall⟩ := ih.mp h
        exact ⟨c :: pre, mid, post, by simp [heq], hall⟩
    · rintro ⟨pre, mid, post, heq, hall⟩
      unfold findPemBlock
      cases hm : matchPemAt (c :: rest) with
      | some run => rfl
      | none =>
        cases pre with
        | nil =>
          exfalso
          have hsome : (matchPemAt (c :: rest)).isSome = true :=
            (matchPemAt_isSome_iff _).mpr
              ⟨mid, post, by simpa [List.append_assoc] using heq, hall⟩
          rw [hm] at hsome
          cases hsome
        | cons c0 pre2 =>
          have hre : rest =
              pre2 ++ BEGIN_CSR.data ++ mid ++ END_CSR.data ++ post := by
            simp only [List.cons_append, List.append_assoc] at heq ⊢
            exact (List.cons.injEq _ _ _ _).mp heq |>.2
          exact ih.mpr ⟨pre2, mid, post, hre, hall⟩

/-! ## Theorems: Request Assembler round trip -/

theorem char_toNat_lt (c : Char) : c.toNat < 0x110000 := by
  have h : c.toNat.isValidChar := c.valid
  rcases h with h | ⟨h1, h2⟩
  · omega
  · exact h2

theorem toNat_ofNat_of_small (b : Nat) (h : b < 0xD800) :
    (Char.ofNat b).toNat = b := by
  have hv : b.isValidChar := Or.inl h
  simp [Char.ofNat, Char.toNat, hv]
  rfl

theorem contVal_ok (n : Nat) (h : n < 64) : contVal (0x80 + n) = some n := by
  unfold contVal
  rw [if_pos (by omega)]
  exact congrArg some (by omega)

theorem utf8Decode_encodeChar_append (c : Char) (rest : List Nat) :
    utf8Decode (utf8EncodeChar c ++ rest) =
      (utf8Decode rest).map fun cs => c :: cs := by
  have hlt : c.toNat < 0x110000 := char_toNat_lt c
  unfold utf8EncodeChar
  by_cases h1 : c.toNat < 0x80
  · rw [if_pos h1]
    show utf8Decode (c.toNat :: rest) = _
    rw [utf8Decode]
    rw [if_pos h1, Char.ofNat_toNat]
  · rw [if_neg h1]
    by_cases h2 : c.toNat < 0x800
    · rw [if_pos h2]
      show utf8Decode
        ((0xC0 + c.toNat / 64) :: (0x80 + c.toNat % 64) :: rest) = _
      rw [utf8Decode]
      rw [if_neg (by omega), if_neg (by omega), if_pos (by omega),
        if_neg (by simp)]
      simp only [List.headD_cons, List.tail_cons]
      rw [contVal_ok _ (by omega), Option.some_bind]
      have hv : (0xC0 + c.toNat / 64 - 0xC0) * 64 + c.toNat % 64 =
          c.toNat := by
        omega
      rw [hv, Char.ofNat_toNat]
    · by_cases h3 : c.toNat < 0x10000
      · rw [if_neg h2, if_pos h3]
        show utf8Decode ((0xE0 + c.toNat / 4096) ::
          (0x80 + c.toNat / 64 % 64) :: (0x80 + c.toNat % 64) :: rest) = _
        rw [utf8Decode]
        rw [if_neg (by omega), if_neg (by omega), if_neg (by omega),
          if_pos (by omega), if_neg (by simp)]
        simp only [List.headD_cons, List.tail_cons]
        rw [contVal_ok _ (by omega), Option.some_bind,
          contVal_ok _ (by omega), Option.some_bind]
        have hv : (0xE0 + c.toNat / 4096 - 0xE0) * 4096 +
            c.toNat / 64 % 64 * 64 + c.toNat % 64 = c.toNat := by
          omega
        rw [hv, Char.ofNat_toNat]
      · rw [if_neg h2, if_neg h3]
        show utf8Decode ((0xF0 + c.toNat / 262144) ::
          (0x80 + c.toNat / 4096 % 64) :: (0x80 + c.toNat / 64 % 64) ::
          (0x80 + c.toNat % 64) :: rest) = _
        rw [utf8Decode]
        rw [if_neg (by omega), if_neg (by omega), if_neg (by omega),
          if_neg (by omega), if_pos (by omega), if_neg (by simp)]
        simp only [List.headD_cons, List.tail_cons]
        rw [contVal_ok _ (by omega), Option.some_bind,
          contVal_ok _ (by omega), Option.some_bind,
          contVal_ok _ (by omega), Option.some_bind]
        have hv : (0xF0 + c.toNat / 262144 - 0xF0) * 262144 +
            c.toNat / 4096 % 64 * 4096 + c.toNat / 64 % 64 * 64 +
            c.toNat % 64 = c.toNat := by
          omega
        rw [hv, Char.ofNat_toNat]

theorem utf8Decode_encode (s : List Char) :
    utf8Decode (utf8Encode s) = some s := by
  induction s with
  | nil =>
    show utf8Decode [] = some []
    rw [utf8Decode]
  | cons c rest ih =>
    unfold utf8Encode
    rw [List.flatMap_cons]
    have := utf8Decode_encodeChar_append c (rest.flatMap utf8EncodeChar)
    rw [this]
    unfold utf8Encode at ih
    rw [ih]
    rfl

theorem utf8EncodeChar_lt_256 (c : Char) (b : Nat)
    (hb : b ∈ utf8EncodeChar c) : b < 256 := by
  have hlt : c.toNat < 0x110000 := char_toNat_lt c
  unfold utf8EncodeChar at hb
  split_ifs at hb <;> simp at hb <;> omega

theorem hexVal_hexDigit (n : Nat) (h : n < 16) :
    hexVal (hexDigit n) = some n := by
  interval_cases n <;> rfl

theorem hexDigit_not_special (n : Nat) (h : n < 16) :
    hexDigit n ≠ '&' ∧ hexDigit n ≠ '=' ∧ hexDigit n ≠ '%' ∧
      hexDigit n ≠ '+' := by
  interval_cases n <;> exact ⟨by decide, by decide, by decide, by decide⟩

theorem percentDecode_quoteByte_append (b : Nat) (hb : b < 256)
    (rest : List Char) :
    percentDecode (quoteByte b ++ rest) =
      (percentDecode rest).map fun bs => b :: bs := by
  unfold quoteByte
  by_cases h32 : b = 32
  · rw [if_pos h32]
    show percentDecode ('+' :: rest) = _
    rw [percentDecode]
    rw [if_neg (by decide), if_pos rfl, h32]
  · rw [if_neg h32]
    by_cases hsafe : b < 128 ∧ alwaysSafe (Char.ofNat b) = true
    · rw [if_pos hsafe]
      show percentDecode (Char.ofNat b :: rest) = _
      rw [percentDecode]
      have hamp : Char.ofNat b ≠ '%' := by
        intro h
        rw [h] at hsafe
        exact absurd hsafe.2 (by decide)
      have hplus : Char.ofNat b ≠ '+' := by
        intro h
        rw [h] at hsafe
        exact absurd hsafe.2 (by decide)
      rw [if_neg hamp, if_neg hplus,
        toNat_ofNat_of_small b (by omega)]
    · rw [if_neg hsafe]
      show percentDecode
        ('%' :: hexDigit (b / 16) :: hexDigit (b % 16) :: rest) = _
      rw [percentDecode]
      rw [if_pos rfl, if_neg (by simp)]
      simp only [List.headD_cons, List.tail_cons]
      rw [hexVal_hexDigit (b / 16) (by omega), Option.some_bind,
        hexVal_hexDigit (b % 16) (by omega), Option.some_bind]
      have hv : b / 16 * 16 + b % 16 = b := by omega
      rw [hv]

theorem percentDecode_quoted_append (bs : List Nat)
    (hbs : ∀ b ∈ bs, b < 256) (rest : List Char) :
    percentDecode (bs.flatMap quoteByte ++ rest) =
      (percentDecode rest).map fun tail => bs ++ tail := by
  induction bs with
  | nil => simp
  | cons b bs2 ih =>
    rw [List.flatMap_cons, List.append_assoc,
      percentDecode_quoteByte_append b (hbs b (by simp)),
      ih fun x hx => hbs x (by simp [hx])]
    cases percentDecode rest <;> rfl

theorem unquote_quote (s : String) :
    unquote_plus (quote_plus s) = some s := by
  unfold unquote_plus quote_plus
  rw [show (utf8Encode s.data).flatMap quoteByte =
      (utf8Encode s.data).flatMap quoteByte ++ [] from by simp]
  rw [percentDecode_quoted_append (utf8Encode s.data)
    (fun b hb => by
      unfold utf8Encode at hb
      obtain ⟨c, _, hc⟩ := List.mem_flatMap.mp hb
      exact utf8EncodeChar_lt_256 c b hc) []]
  rw [show percentDecode [] = some [] from by rw [percentDecode]]
  show ((some (utf8Encode s.data ++ [])).bind fun bs =>
    (utf8Decode bs).map fun l => String.mk l) = some s
  rw [Option.some_bind, List.append_nil, utf8Decode_encode]
  rfl

theorem quoteByte_chars_not_special (b : Nat) (hb : b < 256) (c : Char)
    (hc : c ∈ quoteByte b) : c ≠ '&' ∧ c ≠ '=' := by
  unfold quoteByte at hc
  by_cases h32 : b = 32
  · rw [if_pos h32] at hc
    simp at hc
    subst hc
    exact ⟨by decide, by decide⟩
  · rw [if_neg h32] at hc
    by_cases hsafe : b < 128 ∧ alwaysSafe (Char.ofNat b) = true
    · rw [if_pos hsafe] at hc
      simp at hc
      subst hc
      constructor
      · intro h
        rw [h] at hsafe
        exact absurd hsafe.2 (by decide)
      · intro h
        rw [h] at hsafe
        exact absurd hsafe.2 (by decide)
    · rw [if_neg hsafe] at hc
      simp at hc
      rcases hc with rfl | rfl | rfl
      · exact ⟨by decide, by decide⟩
      · have := hexDigit_not_special (b / 16) (by omega)
        exact ⟨this.1, this.2.1⟩
      · have := hexDigit_not_special (b % 16) (by omega)
        exact ⟨this.1, this.2.1⟩

theorem quote_plus_not_special (s : String) (c : Char)
    (hc : c ∈ quote_plus s) : c ≠ '&' ∧ c ≠ '=' := by
  unfold quote_plus at hc
  obtain ⟨b, hb, hcq⟩ := List.mem_flatMap.mp hc
  have hb256 : b < 256 := by
    unfold utf8Encode at hb
    obtain ⟨ch, _, hch⟩ := List.mem_flatMap.mp hb
    exact utf8EncodeChar_lt_256 ch b hch
  exact quoteByte_chars_not_special b hb256 c hcq

theorem splitAmp_no_amp (a : List Char) (h : '&' ∉ a) :
    splitAmp a = [a] := by
  induction a with
  | nil => rfl
  | cons c rest ih =>
    show (if c = '&' then [] :: splitAmp rest
      else consHead c (splitAmp rest)) = [c :: rest]
    rw [if_neg (by intro hc; exact h (by simp [hc]))]
    rw [ih fun hc => h (by simp [hc])]
    rfl

theorem splitAmp_append (a rest : List Char) (h : '&' ∉ a) :
    splitAmp (a ++ '&' :: rest) = a :: splitAmp rest := by
  induction a with
  | nil =>
    show (if '&' = '&' then [] :: splitAmp rest
      else consHead '&' (splitAmp rest)) = [] :: splitAmp rest
    rw [if_pos rfl]
  | cons c a2 ih =>
    show (if c = '&' then [] :: splitAmp (a2 ++ '&' :: rest)
      else consHead c (splitAmp (a2 ++ '&' :: rest))) = _
    rw [if_neg (by intro hc; exact h (by simp [hc]))]
    rw [ih fun hc => h (by simp [hc])]
    rfl

theorem splitEq1_append (k v : List Char) (h : '=' ∉ k) :
    splitEq1 (k ++ '=' :: v) = (k, v) := by
  induction k with
  | nil =>
    show (if ('=' : Char) = '=' then (([] : List Char), v)
      else ('=' :: (splitEq1 v).1, (splitEq1 v).2)) = (([] : List Char), v)
    rw [if_pos rfl]
  | cons c k2 ih =>
    show (if c = '=' then (([] : List Char), k2 ++ '=' :: v)
      else (c :: (splitEq1 (k2 ++ '=' :: v)).1,
        (splitEq1 (k2 ++ '=' :: v)).2)) = _
    rw [if_neg (by intro hc; exact h (by simp [hc]))]
    rw [ih fun hc => h (by simp [hc])]

theorem entry_no_amp (kv : String × String) :
    '&' ∉ quote_plus kv.1 ++ ('=' :: quote_plus kv.2) := by
  intro hc
  rcases List.mem_append.mp hc with hc | hc
  · exact (quote_plus_not_special kv.1 '&' hc).1 rfl
  · rcases List.mem_cons.mp hc with hc | hc
    · cases hc
    · exact (quote_plus_not_special kv.2 '&' hc).1 rfl

theorem decode_entry (kv : String × String) :
    (match unquote_plus
        (splitEq1 (quote_plus kv.1 ++ ('=' :: quote_plus kv.2))).1,
      unquote_plus
        (splitEq1 (quote_plus kv.1 ++ ('=' :: quote_plus kv.2))).2 with
    | some k, some v => some (k, v)
    | _, _ => none) = some kv := by
  rw [splitEq1_append _ _
    fun hc => (quote_plus_not_special kv.1 '=' hc).2 rfl]
  show (match unquote_plus (quote_plus kv.1),
      unquote_plus (quote_plus kv.2) with
    | some k, some v => some (k, v)
    | _, _ => none) = some kv
  rw [unquote_quote, unquote_quote]

theorem mapM_split_urlencode (kv : String × String)
    (rest : List (String × String)) :
    ((splitAmp (urlencodeChars (kv :: rest))).mapM fun piece =>
      match unquote_plus (splitEq1 piece).1,
          unquote_plus (splitEq1 piece).2 with
      | some k, some v => some (k, v)
      | _, _ => none) = some (kv :: rest) := by
  induction rest generalizing kv with
  | nil =>
    show ((splitAmp (quote_plus kv.1 ++ ('=' :: quote_plus kv.2))).mapM
      fun piece => _) = _
    rw [splitAmp_no_amp _ (entry_no_amp kv), List.mapM_cons, decode_entry]
    rfl
  | cons kv2 rest2 ih =>
    show ((splitAmp (quote_plus kv.1 ++ ('=' :: (quote_plus kv.2 ++
      ('&' :: urlencodeChars (kv2 :: rest2)))))).mapM fun piece => _) = _
    have hassoc : quote_plus kv.1 ++ ('=' :: (quote_plus kv.2 ++
        ('&' :: urlencodeChars (kv2 :: rest2)))) =
        (quote_plus kv.1 ++ ('=' :: quote_plus kv.2)) ++
          ('&' :: urlencodeChars (kv2 :: rest2)) := by
      simp
    rw [hassoc, splitAmp_append _ _ (entry_no_amp kv), List.mapM_cons,
      decode_entry, ih kv2]
    rfl

theorem formDecode_urlencode (pairs : List (String × String))
    (h : pairs ≠ []) : formDecode (urlencode pairs) = some pairs := by
  cases pairs with
  | nil => exact absurd rfl h
  | cons kv rest => exact mapM_split_urlencode kv rest

/-! ## Claim theorems -/

/-- C1: for every name string and validated-domain list, the domain
validator returns the first validated domain (in iteration order) that is a
literal string suffix of the name — with no label-boundary or wildcard
awareness, so `is_validated_domain "evilexample.com" ["example.com"]`
returns `"example.com"` — and returns `none` (Python `False`) when no
validated domain is a suffix of the name. -/
theorem covers_returns_first_literal_suffix (n : String) (ds : List String) :
    (∀ d, is_validated_domain n ds = some d →
      ∃ pre post, ds = pre ++ d :: post ∧ d.data <:+ n.data ∧
        ∀ e ∈ pre, ¬ e.data <:+ n.data) ∧
    (is_validated_domain n ds = none ↔ ∀ d ∈ ds, ¬ d.data <:+ n.data) ∧
    is_validated_domain "evilexample.com" ["example.com"] =
      some "example.com" :=
  ⟨fun d h => is_validated_domain_eq_some n ds d h,
   is_validated_domain_eq_none_iff n ds,
   by decide⟩

theorem covers_returns_first_literal_suffix_witness :
    ∃ pre post, (["example.com"] : List String) = pre ++ "example.com" :: post ∧
      "example.com".data <:+ "evilexample.com".data ∧
      ∀ e ∈ pre, ¬ e.data <:+ "evilexample.com".data :=
  (covers_returns_first_literal_suffix "evilexample.com" ["example.com"]).1
    "example.com" (by decide)

/-- C2: for every subject list containing at least one subject with no
covering validated domain, plan construction fails with the CoverageError
(`Missing domain validations`) naming the first uncovered subject in subject
order, and produces no `SubjectPlan` (the result is `.error`, so no partial
plan or submission body exists). -/
theorem plan_fails_on_first_uncovered (subjects ds : List String)
    (h : ∃ s ∈ subjects, Uncovered s ds) :
    ∃ pre s post, subjects = pre ++ s :: post ∧ Uncovered s ds ∧
      (∀ t ∈ pre, ¬ Uncovered t ds) ∧
      plan subjects ds = .error (.missingValidation s) := by
  obtain ⟨pre, s, post, hsub, hu, hpre, hloop⟩ :=
    planLoop_error_of_uncovered ds subjects h
  refine ⟨pre, s, post, hsub, hu, hpre, ?_⟩
  have hne : subjects.length ≠ 0 := by
    subst hsub; simp
  unfold plan
  rw [if_neg hne, hloop [] [] none]

theorem plan_fails_on_first_uncovered_witness :
    ∃ pre s post, (["example.com"] : List String) = pre ++ s :: post ∧
      Uncovered s [] ∧ (∀ t ∈ pre, ¬ Uncovered t []) ∧
      plan ["example.com"] [] = .error (.missingValidation s) :=
  plan_fails_on_first_uncovered ["example.com"] []
    ⟨"example.com", by simp, fun d hd => absurd hd (List.not_mem_nil d)⟩

/-- C4: for every decoded CSR with a common name, the subjects list is the
common name first, followed by each DNS-type SAN value that is not already
present, in order of first appearance with later duplicates dropped. -/
theorem subjects_built_cn_first_dedup (csr : CSRData) (cn : String)
    (_h : get_common_name csr = some cn) :
    subjectsOf cn (get_subject_alt_names csr ["dNSName"]) =
      cn :: dropLaterDuplicates
        ((((allSubjectAltNames csr).filter
            fun gn => gn.1 = "dNSName").map Prod.snd).filter
          fun v => v ≠ cn) := by
  rw [get_subject_alt_names_filter csr ["dNSName"] (by simp), subjectsOf_eq]
  have hfc : ((allSubjectAltNames csr).filter
        fun gn => (["dNSName"] : List String).contains gn.1) =
      (allSubjectAltNames csr).filter fun gn => gn.1 = "dNSName" := by
    apply List.filter_congr
    intro gn _
    by_cases hgn : gn.1 = "dNSName" <;> simp [hgn]
  rw [hfc]

theorem subjects_built_cn_first_dedup_witness :
    subjectsOf "example.com" (get_subject_alt_names exampleCSR ["dNSName"]) =
      "example.com" :: dropLaterDuplicates
        ((((allSubjectAltNames exampleCSR).filter
            fun gn => gn.1 = "dNSName").map Prod.snd).filter
          fun v => v ≠ "example.com") :=
  subjects_built_cn_first_dedup exampleCSR "example.com" rfl

/-- C8: an empty input subject list is itself an error (the
`no subjects found` assertion fires), and whenever plan construction
succeeds on a non-empty subject list the resulting `subjects_direct`
(directDomains) is non-empty. -/
theorem plan_direct_nonempty_and_empty_error :
    (∀ ds, plan [] ds = .error .noSubjectsFound) ∧
    ∀ subjects ds p, subjects ≠ [] → plan subjects ds = .ok p →
      p.subjects_direct ≠ [] := by
  constructor
  · intro ds; rfl
  · intro subjects ds p hne hok
    unfold plan at hok
    rw [if_neg (by simpa using hne)] at hok
    cases hloop : planLoop ds subjects [] [] none with
    | error e => simp only [hloop] at hok; cases hok
    | ok res =>
      obtain ⟨direct, sub, first⟩ := res
      simp only [hloop] at hok
      by_cases hd : direct.length = 0
      · rw [if_pos hd] at hok; cases hok
      · rw [if_neg hd] at hok
        injection hok with hok
        subst hok
        intro hcontra
        simp only at hcontra
        exact hd (by simp [hcontra])

theorem plan_direct_nonempty_and_empty_error_witness :
    plan [] [] = .error .noSubjectsFound ∧
      (SubjectPlan.mk ["example.com"] ["example.com"] []
        (some "example.com")).subjects_direct ≠ [] :=
  ⟨plan_direct_nonempty_and_empty_error.1 [],
   plan_direct_nonempty_and_empty_error.2 ["example.com"] ["example.com"] _
     (by simp) rfl⟩

/-- C10: for every decoded CSR, SAN extraction with an empty filter
collection returns every SAN entry in encoding order (the empty filter is
"no filter", by Python truthiness of `if types and ...`), and only a
non-empty filter collection restricts output, to the entries whose type is
in the collection. -/
theorem san_empty_filter_means_no_filter (csr : CSRData) :
    get_subject_alt_names csr [] = allSubjectAltNames csr ∧
    ∀ types, types ≠ [] →
      get_subject_alt_names csr types =
        (allSubjectAltNames csr).filter fun gn => types.contains gn.1 :=
  ⟨get_subject_alt_names_empty_types csr,
   fun types h => get_subject_alt_names_filter csr types h⟩

theorem san_empty_filter_means_no_filter_witness :
    get_subject_alt_names exampleCSR [] = allSubjectAltNames exampleCSR ∧
      get_subject_alt_names exampleCSR ["dNSName"] =
        (allSubjectAltNames exampleCSR).filter
          fun gn => (["dNSName"] : List String).contains gn.1 :=
  ⟨(san_empty_filter_means_no_filter exampleCSR).1,
   (san_empty_filter_means_no_filter exampleCSR).2 ["dNSName"] (by simp)⟩

/-- C9: the Request Assembler is a pure transformation: it concatenates the
plan's subjects with no separator (`"".join(subjects)`), pairs the result
with the fixed field names `domains`/`rbcsr`/`areaCSR`/`hidchekcer`/
`__EVENTTARGET` and the literal CSR PEM text, and URL-encodes the list as a
form body; for every plan and CSR text, form-decoding the output recovers
exactly the pairs supplied — in particular the subject concatenation and
the CSR text. -/
theorem build_formDecode_roundtrip (p : SubjectPlan) (csrPem : String) :
    formDecode (build p csrPem) =
      some [("domains", String.join p.subjects), ("rbcsr", "scsr"),
        ("areaCSR", csrPem), ("hidchekcer", "1"),
        ("__EVENTTARGET", "btnSubmit")] :=
  formDecode_urlencode _ (by simp [submissionBody])

/-- C3 counterexample: a two-entry archive in which one entry is the fixed
intermediate filename but it is the second entry.  The claim as stated
("reads the other entry, whichever name it has, as the leaf") predicts
success with the bundle `("foo", leafPem, interPem)`; the code instead
fails at `assert intermediate_filename != cert_filename` because
`namelist()[1]` is `1_Intermediate.crt`. -/
theorem two_entry_reversed_order_rejected :
    get_certificate "foo.zip"
        (.zdir [("2_foo.crt", .file leafPem),
          ("1_Intermediate.crt", .file interPem)]) true =
      .error .clientSameName ∧
    get_certificate "foo.zip"
        (.zdir [("2_foo.crt", .file leafPem),
          ("1_Intermediate.crt", .file interPem)]) true ≠
      .ok ("foo", leafPem, interPem) := by
  refine ⟨rfl, ?_⟩
  intro h
  exact Except.noConfusion h

theorem two_entry_intermediate_first_reads_second_leaf_witness :
    get_certificate "foo.zip"
        (.zdir [("1_Intermediate.crt", .file interPem),
          ("2_foo.crt", .file leafPem)]) true =
      .ok ("foo", leafPem, interPem) :=
  two_entry_intermediate_first_reads_second_leaf "foo" "2_foo.crt"
    interPem leafPem (by decide) (by decide) (by decide) (by decide)
    (by decide) (by decide)

theorem server_layout_requires_three_and_reads_pair_witness :
    get_certificate "foo.zip"
        (.zdir [("OtherServer.zip",
          .zdir [("1_Intermediate.crt", .file interPem),
            ("2_foo.crt", .file leafPem),
            ("1_foo.crt", .file leafPem)])]) true =
      .ok ("foo", leafPem, interPem) :=
  (server_layout_requires_three_and_reads_pair "foo"
      [("OtherServer.zip",
        .zdir [("1_Intermediate.crt", .file interPem),
          ("2_foo.crt", .file leafPem),
          ("1_foo.crt", .file leafPem)])]
      [("1_Intermediate.crt", .file interPem),
        ("2_foo.crt", .file leafPem),
        ("1_foo.crt", .file leafPem)] rfl).2
    interPem leafPem rfl rfl rfl (by decide) (by decide) (by decide)
    (by decide)

/-- C6: for every structurally valid outer archive (testzip passes, `.zip`
filename) with no server sub-archive entry, whose entry set matches neither
known layout — entry count other than two, or a two-entry archive missing
the fixed intermediate entry name — extract fails with an error at an
unrecognized-layout check site, a kind distinct from the format-error
sites (spec §7 taxonomy). -/
theorem unrecognized_layout_rejected (fn : String)
    (entries : List (String × ZData))
    (hzip : pyTakeLast fn 4 = ".zip")
    (hns : "OtherServer.zip" ∉ entries.map Prod.fst)
    (hshape : entries.length ≠ 2 ∨
      "1_Intermediate.crt" ∉ entries.map Prod.fst) :
    ∃ e, get_certificate fn (.zdir entries) true = .error e ∧
      isUnrecognizedLayoutError e = true ∧ isFormatError e = false := by
  rw [get_certificate_zdir _ _ hzip, if_neg hns]
  match entries, hshape with
  | [], _ => exact ⟨.unexpectedZipContent, rfl, rfl, rfl⟩
  | [e0], _ => exact ⟨.unexpectedZipContent, rfl, rfl, rfl⟩
  | e0 :: e1 :: e2 :: rest, _ =>
    exact ⟨.unexpectedZipContent, rfl, rfl, rfl⟩
  | [e0, e1], hshape =>
    have hmiss : "1_Intermediate.crt" ∉ [e0.1, e1.1] := by
      rcases hshape with h | h
      · exact absurd rfl h
      · simpa using h
    refine ⟨.clientIntermediateMissing, ?_, rfl, rfl⟩
    simp only [clientBranch]
    rw [if_neg (fun h => hmiss (by rw [h]; simp)), if_pos hmiss]

/-- C7: for every input string, CSR decoding fails with a FormatError
(`ValueError("Not a valid PEM CSR")`) when the string does not contain a
BEGIN/END CERTIFICATE REQUEST delimited base64 block, and when the base64
payload violates the DER/PKCS#10 structure (the DER decoder rejects the
decoded bytes), it fails with the propagated decoder error — a typed,
synchronous `.error` result of the total function `parse_pem`, hence a
recoverable, reportable failure rather than a crash of the caller. -/
theorem csr_decode_format_errors (derDecode : List Nat → Except Unit CSRData)
    (pem : String) :
    (¬ HasPemBlock pem.data →
      parse_pem derDecode pem = .error .notValidPem) ∧
    (∀ run bin, findPemBlock pem.data = some run →
      b64decodePy run = some bin → derDecode bin = .error () →
      parse_pem derDecode pem = .error .derViolation) := by
  constructor
  · intro h
    unfold parse_pem
    cases hf : findPemBlock pem.data with
    | none => rfl
    | some run =>
      exact absurd
        ((findPemBlock_isSome_iff pem.data).mp (by rw [hf]; rfl)) h
  · intro run bin hf hb hd
    unfold parse_pem
    simp only [hf, hb, hd]

theorem csr_decode_format_errors_witness :
    parse_pem (fun _ => .error ()) "no csr here" = .error .notValidPem ∧
    parse_pem (fun _ => .error ())
        "-----BEGIN CERTIFICATE REQUEST-----QUJD-----END CERTIFICATE REQUEST-----" =
      .error .derViolation := by
  constructor
  · refine (csr_decode_format_errors (fun _ => .error ()) "no csr here").1
      fun hc => ?_
    have h := (findPemBlock_isSome_iff "no csr here".data).mpr hc
    rw [show findPemBlock "no csr here".data = none from rfl] at h
    cases h
  · exact (csr_decode_format_errors (fun _ => .error ()) _).2
      "QUJD".data [65, 66, 67] rfl rfl rfl

theorem unrecognized_layout_rejected_witness :
    ∃ e, get_certificate "foo.zip"
        (.zdir [("a.crt", ZData.file leafPem)]) true = .error e ∧
      isUnrecognizedLayoutError e = true ∧ isFormatError e = false :=
  unrecognized_layout_rejected "foo.zip" [("a.crt", ZData.file leafPem)]
    (by decide) (by decide) (Or.inl (by decide))

end StartSSL
